import Mathlib

/-!
Verification development for the doctown-v8 repository.

The definitions below are shallow embeddings of the TypeScript route handlers
under `website/src/routes/api` and of the Python query-agent loop embedded in
the query endpoint, together with models of the components the spec describes
for the documenter core.  Each claim theorem states one property of these
embeddings.
-/

/-! ## Substring search (JavaScript `String.prototype.includes`, Python `in`) -/

/-- Boolean test that the first list is an initial segment of the second. -/
def listIsPref : List Char → List Char → Bool
  | [], _ => true
  | _ :: _, [] => false
  | a :: ps, b :: bs => a == b && listIsPref ps bs

/-- Boolean test that `pat` occurs as a contiguous sublist. -/
def listHasSub (pat : List Char) : List Char → Bool
  | [] => listIsPref pat []
  | b :: bs => listIsPref pat (b :: bs) || listHasSub pat bs

/-- Substring containment on strings: `strHasSub s pat` is the embedding of the
JavaScript expression `s.includes(pat)` and of the Python expression
`pat in s`. -/
def strHasSub (s pat : String) : Bool := listHasSub pat.toList s.toList

/-! ## The docpack file-serving endpoint

Embedding of the `GET` handler of `api/docpack/[id]/file/+server.ts`
(src/unnamed/part_008, lines 9-34).  The handler reads the `path` query
parameter (`null` when absent, modelled as `Option String`; the JavaScript
guard `if (!filePath)` also fires on the empty string), rejects any value
containing the substring `..` with a status-400 JSON error, and otherwise
proceeds directly to `readFile(join(docpackPath, filePath))` with no
canonicalization of the joined path and no symlink re-check.  The decision
phase is pure and is captured by `fileGet`; the read target is recorded as
the pair of the two `join` arguments. -/

/-- Outcome of the pre-I/O decision phase of the file-serving handler:
either a structured JSON error response with an HTTP status, or the
handler goes on to read `join(docpackPath, filePath)` from disk. -/
inductive FileGetDecision where
  | reject (status : Nat) (message : String)
  | readJoin (docpackPath : String) (filePath : String)
deriving DecidableEq

/-- Embedding of lines 11-24 of the handler: the guards executed before any
filesystem access, in source order. -/
def fileGet (docpackPath : String) (filePath : Option String) : FileGetDecision :=
  match filePath with
  | none => .reject 400 "No file path provided"
  | some p =>
      if p = "" then .reject 400 "No file path provided"
      else if strHasSub p ".." then .reject 400 "Invalid file path"
      else .readJoin docpackPath p

/-- True exactly when the decision proceeds to a filesystem read. -/
def decisionReads : FileGetDecision → Bool
  | .reject _ _ => false
  | .readJoin _ _ => true

/-- Embedding of the whole handler body including the `try`/`catch`: a read
failure (the thrown error of `readFile`) is caught and mapped to a status-500
structured error payload, a successful read returns the content as a JSON
payload.  The filesystem is abstracted by `fsRead`, taking the two `join`
arguments and returning either the file content or an error message. -/
inductive HttpResp where
  | ok (body : String)
  | err (status : Nat) (message : String)
deriving DecidableEq

/-- Full response of the file-serving handler for a given abstract filesystem. -/
def fileGetRespond (dp : String) (fp : Option String)
    (fsRead : String → String → Except String String) : HttpResp :=
  match fileGet dp fp with
  | .reject st m => .err st m
  | .readJoin d p =>
      match fsRead d p with
      | .ok content => .ok content
      | .error e => .err 500 e

/-- C1 — counterexample.  The claim asserts that an absolute-path override is
rejected with a PathEscape error before any filesystem I/O.  On the code, the
request `path=/etc/passwd` contains no `..` substring, so the handler does not
reject it and proceeds directly to a filesystem read of
`join(docpackPath, "/etc/passwd")`. -/
theorem c1_counterexample :
    fileGet "/home/u/.localdoc/outputs/p.docpack" (some "/etc/passwd") =
      FileGetDecision.readJoin "/home/u/.localdoc/outputs/p.docpack" "/etc/passwd" ∧
    decisionReads
      (fileGet "/home/u/.localdoc/outputs/p.docpack" (some "/etc/passwd")) = true := by
  constructor <;> decide

/-- C1 — amended claim.  Every requested path containing the substring `..`
is rejected with a status-400 structured error before any filesystem I/O;
but absolute-path overrides and symlink redirections are not checked: every
requested nonempty path without that substring proceeds directly to a
filesystem read of `join(docpackPath, path)`. -/
theorem c1_amended_dotdot_only_gate (dp p : String) :
    (strHasSub p ".." = true →
        fileGet dp (some p) = FileGetDecision.reject 400 "Invalid file path" ∧
        decisionReads (fileGet dp (some p)) = false) ∧
    (strHasSub p ".." = false → p ≠ "" →
        fileGet dp (some p) = FileGetDecision.readJoin dp p ∧
        decisionReads (fileGet dp (some p)) = true) := by
  constructor
  · intro h
    have hne : p ≠ "" := by
      intro he
      rw [he] at h
      exact absurd h (by decide)
    simp [fileGet, hne, h, decisionReads]
  · intro h hne
    simp [fileGet, hne, h, decisionReads]

/-- C1 — witness for the amended claim at concrete inputs. -/
theorem c1_amended_witness :
    fileGet "d" (some "a/../b") = FileGetDecision.reject 400 "Invalid file path" ∧
    fileGet "d" (some "files/readme.md") = FileGetDecision.readJoin "d" "files/readme.md" := by
  have h1 := (c1_amended_dotdot_only_gate "d" "a/../b").1 (by decide)
  have h2 := (c1_amended_dotdot_only_gate "d" "files/readme.md").2 (by decide) (by decide)
  exact ⟨h1.1, h2.1⟩

/-- C2 — every request whose `path` parameter contains the substring `..`
anywhere is answered by a status-400 structured error with no filesystem
read; in particular a path whose final filename merely contains `..`, such
as `files/a..b.md`, is also rejected; and every nonempty path without that
substring proceeds directly to reading `join(docpackPath, path)` with no
further check. -/
theorem c2_substring_dotdot_rejection (dp p : String) :
    (strHasSub p ".." = true →
        fileGet dp (some p) = FileGetDecision.reject 400 "Invalid file path" ∧
        decisionReads (fileGet dp (some p)) = false) ∧
    (strHasSub p ".." = false → p ≠ "" →
        fileGet dp (some p) = FileGetDecision.readJoin dp p) ∧
    fileGet dp (some "files/a..b.md") = FileGetDecision.reject 400 "Invalid file path" := by
  refine ⟨?_, ?_, ?_⟩
  · intro h
    have hne : p ≠ "" := by
      intro he
      rw [he] at h
      exact absurd h (by decide)
    simp [fileGet, hne, h, decisionReads]
  · intro h hne
    simp [fileGet, hne, h]
  · simp [fileGet, strHasSub]
    decide

/-- C2 — witness at concrete inputs. -/
theorem c2_witness :
    fileGet "dp" (some "files/a..b.md") = FileGetDecision.reject 400 "Invalid file path" ∧
    fileGet "dp" (some "files/ok.md") = FileGetDecision.readJoin "dp" "files/ok.md" := by
  have h := c2_substring_dotdot_rejection "dp" "files/ok.md"
  exact ⟨(c2_substring_dotdot_rejection "dp" "files/a..b.md").2.2,
    h.2.1 (by decide) (by decide)⟩

/-! ## Sandbox read quota (spec-modelled) -/

/-- Modelled from the spec: the Sandbox component (`documenter/sandbox.py`,
class `Sandbox`) is not among the repository sources; only its callers (the
Python agent embedded in the query endpoint imports `from sandbox import
Sandbox`) are.  Per spec section 4.1, the Sandbox owns the run-scoped
counters; `SandboxState` records the manifest constraint `max_file_reads`
and the number of reads consumed so far. -/
structure SandboxState where
  maxReads : Nat
  readsConsumed : Nat
deriving DecidableEq

/-- Error descriptors of the sandbox and tool layer, per spec section 7. -/
inductive SandboxError where
  | quotaExceeded
  | timeExceeded
  | pathEscape
deriving DecidableEq

/-- Modelled from the spec: `chargeRead()` fails with `QuotaExceeded` once
`reads consumed >= max_reads`; otherwise it charges one read. -/
def chargeRead (s : SandboxState) : Except SandboxError SandboxState :=
  if s.maxReads ≤ s.readsConsumed then .error .quotaExceeded
  else .ok { s with readsConsumed := s.readsConsumed + 1 }

/-- Outcomes of a sequence of `n` consecutive read attempts against the
sandbox, charging on success and leaving the state unchanged on failure. -/
def attemptOutcomes (s : SandboxState) : Nat → List (Except SandboxError Unit)
  | 0 => []
  | n + 1 =>
      match chargeRead s with
      | .ok s2 => .ok () :: attemptOutcomes s2 n
      | .error e => .error e :: attemptOutcomes s n

/-- True on a successful attempt outcome. -/
def isOkOutcome : Except SandboxError Unit → Bool
  | .ok _ => true
  | .error _ => false

/-- Number of charged (successful) reads in a list of attempt outcomes. -/
def countOk (l : List (Except SandboxError Unit)) : Nat :=
  (l.filter isOkOutcome).length

/-- Modelled from the spec: the Orchestrator (`documenter/main.py`) is not
among the repository sources.  Per spec section 4.4, a quota failure during
tool dispatch is surfaced to the agent once, and a second consecutive quota
failure for the same task forces early completion with a `ResourceExhausted`
annotation. -/
inductive TaskOutcome where
  | completed
  | resourceExhausted
deriving DecidableEq

/-- Modelled from the spec: a task that keeps issuing `read_file` calls
(`fuel` remaining requests), with the consecutive-quota-failure escalation of
spec section 4.4: the first failure is surfaced (one retry is allowed), the
second consecutive failure forces `ResourceExhausted`. -/
def runTaskReads (s : SandboxState) (consecFails : Nat) : Nat → TaskOutcome
  | 0 => .completed
  | n + 1 =>
      match chargeRead s with
      | .ok s2 => runTaskReads s2 0 n
      | .error _ =>
          if 1 ≤ consecFails then .resourceExhausted
          else runTaskReads s (consecFails + 1) n

/-- Helper: once the quota is reached, `chargeRead` always fails. -/
theorem chargeRead_error_of_le (s : SandboxState) (h : s.maxReads ≤ s.readsConsumed) :
    chargeRead s = .error .quotaExceeded := by
  simp [chargeRead, h]

/-- Helper: the number of successful attempts in any run is bounded by the
remaining quota. -/
theorem countOk_attemptOutcomes_le (n : Nat) :
    ∀ s : SandboxState, countOk (attemptOutcomes s n) ≤ s.maxReads - s.readsConsumed := by
  induction n with
  | zero => intro s; simp [attemptOutcomes, countOk]
  | succ n ih =>
      intro s
      by_cases h : s.maxReads ≤ s.readsConsumed
      · have hz : s.maxReads - s.readsConsumed = 0 := Nat.sub_eq_zero_of_le h
        have : attemptOutcomes s (n + 1) =
            .error .quotaExceeded :: attemptOutcomes s n := by
          simp [attemptOutcomes, chargeRead, h]
        rw [this, hz]
        have := ih s
        rw [hz] at this
        simpa [countOk, isOkOutcome] using this
      · have hlt : s.readsConsumed < s.maxReads := Nat.lt_of_not_le h
        have : attemptOutcomes s (n + 1) =
            .ok () :: attemptOutcomes { s with readsConsumed := s.readsConsumed + 1 } n := by
          simp [attemptOutcomes, chargeRead, h]
        rw [this]
        have h2 := ih { s with readsConsumed := s.readsConsumed + 1 }
        simp only [countOk, List.filter, isOkOutcome, List.length] at h2 ⊢
        omega

/-- C3 — the number of charged reads never exceeds `max_file_reads`; once
`reads consumed >= max_reads` every further `chargeRead` fails with
`QuotaExceeded`; and in the `max_file_reads = 2` scenario a third
`read_file` call returns `QuotaExceeded` and the task (which retries once
per spec and fails again) ends as `ResourceExhausted`. -/
theorem c3_read_quota (m n : Nat) (s : SandboxState)
    (h : s.maxReads ≤ s.readsConsumed) :
    countOk (attemptOutcomes ⟨m, 0⟩ n) ≤ m ∧
    chargeRead s = .error .quotaExceeded ∧
    attemptOutcomes ⟨2, 0⟩ 3 = [.ok (), .ok (), .error .quotaExceeded] ∧
    runTaskReads ⟨2, 0⟩ 0 4 = .resourceExhausted := by
  refine ⟨?_, chargeRead_error_of_le s h, by rfl, by rfl⟩
  have := countOk_attemptOutcomes_le n ⟨m, 0⟩
  simpa using this

/-- C3 — witness at a concrete state over the quota. -/
theorem c3_witness :
    countOk (attemptOutcomes ⟨5, 0⟩ 9) ≤ 5 ∧
    chargeRead ⟨2, 2⟩ = .error .quotaExceeded := by
  have h := c3_read_quota 5 9 ⟨2, 2⟩ (by decide)
  exact ⟨h.1, h.2.1⟩

/-! ## Output Writer (spec-modelled) -/

/-- Error of the Output Writer when refusing a silent overwrite. -/
inductive WriteError where
  | fileExists
  | pathEscape
deriving DecidableEq

/-- The output subtree as an association list from relative path to content. -/
def lookupFile (fs : List (String × String)) (p : String) : Option String :=
  (fs.find? (fun e => e.1 == p)).map (fun e => e.2)

/-- Replace the content stored at path `p`. -/
def setFile (fs : List (String × String)) (p c : String) : List (String × String) :=
  fs.map (fun e => if e.1 == p then (p, c) else e)

/-- Modelled from the spec: the Output Writer (`write_output` in
`documenter/tools.py`) is not among the repository sources.  Per spec
section 4.5 it refuses to overwrite silently; last-write-wins applies only
when the caller explicitly requests it (`overwrite`). -/
def write_output (fs : List (String × String)) (path content : String)
    (overwrite : Bool) : Except WriteError (List (String × String)) :=
  match lookupFile fs path with
  | none => .ok ((path, content) :: fs)
  | some _ => if overwrite then .ok (setFile fs path content) else .error .fileExists

/-- State of the output subtree after an attempted write: unchanged when the
write was refused. -/
def afterAttempt (fs : List (String × String))
    (r : Except WriteError (List (String × String))) : List (String × String) :=
  match r with
  | .ok fs2 => fs2
  | .error _ => fs

/-- Helper: looking up a path after `setFile` on that path yields the new
content, provided the path was present. -/
theorem lookupFile_setFile (fs : List (String × String)) (p c : String)
    (h : lookupFile fs p ≠ none) :
    lookupFile (setFile fs p c) p = some c := by
  induction fs with
  | nil => simp [lookupFile] at h
  | cons e rest ih =>
      by_cases he : e.1 = p
      · simp [setFile, lookupFile, he, List.find?]
      · have he2 : (e.1 == p) = false := by simp [he]
        have h2 : lookupFile rest p ≠ none := by
          simpa [lookupFile, List.find?, he2] using h
        have := ih h2
        simpa [setFile, lookupFile, List.find?, he2] using this
/-- C8 — `write_output` is idempotent on identical input: after a successful
write of `content` at `path`, attempting the same write again (whether the
caller requests last-write-wins or not) leaves a byte-identical artifact at
`path`; and the writer refuses to overwrite silently: a write to an existing
path without the explicit overwrite request fails with `fileExists`. -/
theorem c8_write_output_idempotent (fs fs1 : List (String × String))
    (path content : String) (ov1 ov2 : Bool)
    (h1 : write_output fs path content ov1 = .ok fs1) :
    lookupFile (afterAttempt fs1 (write_output fs1 path content ov2)) path = some content ∧
    (∀ d, lookupFile fs path = some d →
        write_output fs path content false = .error .fileExists) := by
  constructor
  · have hfs1 : lookupFile fs1 path = some content := by
      unfold write_output at h1
      cases hl : lookupFile fs path with
      | none =>
          rw [hl] at h1
          have : ((path, content) :: fs) = fs1 := by
            simpa using h1
          rw [← this]
          simp [lookupFile, List.find?]
      | some d =>
          rw [hl] at h1
          cases ov1 with
          | false => simp at h1
          | true =>
              have : setFile fs path content = fs1 := by simpa using h1
              rw [← this]
              exact lookupFile_setFile fs path content (by rw [hl]; simp)
    unfold write_output
    rw [hfs1]
    cases ov2 with
    | false => simpa [afterAttempt] using hfs1
    | true =>
        simp only [if_true, afterAttempt]
        exact lookupFile_setFile fs1 path content (by rw [hfs1]; simp)
  · intro d hd
    simp [write_output, hd]

/-- C8 — witness: a concrete first write followed by a refused re-write
leaves the artifact byte-identical. -/
theorem c8_witness :
    lookupFile
      (afterAttempt [("report.md", "hello")]
        (write_output [("report.md", "hello")] "report.md" "hello" false))
      "report.md" = some "hello" := by
  have h := c8_write_output_idempotent [] [("report.md", "hello")]
    "report.md" "hello" false false (by rfl)
  exact h.1

/-! ## The query-agent loop

Embedding of the Python program spawned by the `POST` handler of the query
endpoint (src/unnamed/part_009, lines 37-137).  The reasoning agent is the
function `agent` from the current conversation to its next message; tool
execution is the function `tools` from a tool name and its JSON-encoded
arguments to a result string (`json.dumps(tools.execute(...))`). -/

/-- One tool call issued by the agent (OpenAI tool-call object). -/
structure ToolCall where
  id : String
  name : String
  args : String
deriving DecidableEq

/-- One entry of the conversation (`messages` in the Python source). -/
inductive Msg where
  | user (content : String)
  | assistant (content : Option String) (toolCalls : List ToolCall)
  | tool (toolCallId : String) (name : String) (content : String)
deriving DecidableEq

/-- The message returned by one chat completion. -/
structure AgentMsg where
  content : Option String
  toolCalls : List ToolCall

/-- The conversation entry recorded for one executed tool call: role `tool`,
the originating call id, the tool name, and the serialized result. -/
def mkToolMsg (tools : String → String → String) (tc : ToolCall) : Msg :=
  Msg.tool tc.id tc.name (tools tc.name tc.args)

/-- The thinking-log entry recorded for one executed tool call. -/
def toolLogEntry (tc : ToolCall) : String :=
  "[Tool] " ++ tc.name ++ "(" ++ tc.args ++ ")"

/-- Embedding of the `for tool_call in message.tool_calls` body (lines
96-108): each call is dispatched in order and its result is appended to the
conversation and the thinking log before the next call is dispatched. -/
def runTurnTools (tools : String → String → String) :
    List Msg → List String → List ToolCall → List Msg × List String
  | messages, log, [] => (messages, log)
  | messages, log, tc :: rest =>
      runTurnTools tools (messages ++ [mkToolMsg tools tc])
        (log ++ [toolLogEntry tc]) rest

/-- Result object printed by the query agent (lines 125-130 and 136). -/
structure QueryResult where
  answer : String
  sources : List String
  thinking : String
deriving DecidableEq

/-- Embedding of the answer/sources parsing of a final agent message
(lines 113-122). -/
def parseQueryContent (content : String) (log : List String) : QueryResult :=
  let thinking := String.intercalate "\n" log
  if strHasSub content "ANSWER:" then
    match content.splitOn "SOURCES:" with
    | [] => { answer := content, sources := [], thinking := thinking }
    | [a] =>
        { answer := (a.replace "ANSWER:" "").trim, sources := [], thinking := thinking }
    | a :: b :: _ =>
        { answer := (a.replace "ANSWER:" "").trim,
          sources := ((b.trim.splitOn "\n").map String.trim).filter
            (fun s => !(s == "") && !(s == "-")),
          thinking := thinking }
  else { answer := content, sources := [], thinking := thinking }

/-- The fallback result printed when the loop ends without a final answer
(line 136). -/
def fallbackResult (log : List String) : QueryResult :=
  { answer := "Unable to find a complete answer", sources := [],
    thinking := String.intercalate "\n" log }

/-- The thinking-log entry for an agent message with truthy content
(line 93); the content is truncated to its first 200 characters. -/
def iterLog (iter : Nat) (c : String) : String :=
  "[Iteration " ++ toString iter ++ "] " ++ c.take 200 ++ "..."

/-- Log update at the start of an iteration (lines 92-93): an entry is
recorded only when the message content is truthy (present and nonempty). -/
def contentLogUpd (iter : Nat) (c : Option String) (log : List String) : List String :=
  match c with
  | some s => if s = "" then log else log ++ [iterLog (iter + 1) s]
  | none => log

/-- Embedding of the `while iteration < max_iterations` loop (lines 73-133):
`fuel` is the number of remaining iterations and `iter` the number already
performed.  The returned number counts the chat completions actually issued.
A truthy bare content message ends the loop with the parsed result; an empty
message (`else: break`) and an exhausted iteration budget both fall through
to the fallback result. -/
def queryLoop (agent : List Msg → AgentMsg) (tools : String → String → String) :
    Nat → Nat → List Msg → List String → QueryResult × Nat
  | 0, _, _, log => (fallbackResult log, 0)
  | fuel + 1, iter, messages, log =>
      let m := agent messages
      let messages2 := messages ++ [Msg.assistant m.content m.toolCalls]
      let log2 := contentLogUpd iter m.content log
      if m.toolCalls.isEmpty = false then
        let r := runTurnTools tools messages2 log2 m.toolCalls
        let rec2 := queryLoop agent tools fuel (iter + 1) r.1 r.2
        (rec2.1, rec2.2 + 1)
      else
        match m.content with
        | some c => if c = "" then (fallbackResult log2, 1) else (parseQueryContent c log2, 1)
        | none => (fallbackResult log2, 1)

/-- The iteration ceiling hard-coded at line 74 of the query agent. -/
def max_iterations : Nat := 15

/-- A full run of the query agent: the conversation is seeded with the query
prompt and the loop runs with the default iteration ceiling. -/
def runQuery (agent : List Msg → AgentMsg) (tools : String → String → String)
    (prompt : String) : QueryResult × Nat :=
  queryLoop agent tools max_iterations 0 [Msg.user prompt] []

/-- Helper: the loop never issues more chat completions than its fuel. -/
theorem queryLoop_count_le (agent : List Msg → AgentMsg)
    (tools : String → String → String) :
    ∀ fuel iter messages log, (queryLoop agent tools fuel iter messages log).2 ≤ fuel := by
  intro fuel
  induction fuel with
  | zero => intro iter messages log; simp [queryLoop]
  | succ n ih =>
      intro iter messages log
      unfold queryLoop
      cases hb : (agent messages).toolCalls.isEmpty with
      | false =>
          simp only [hb]
          have := ih (iter + 1)
            (runTurnTools tools (messages ++ [Msg.assistant (agent messages).content
              (agent messages).toolCalls]) (contentLogUpd iter (agent messages).content log)
              (agent messages).toolCalls).1
            (runTurnTools tools (messages ++ [Msg.assistant (agent messages).content
              (agent messages).toolCalls]) (contentLogUpd iter (agent messages).content log)
              (agent messages).toolCalls).2
          simpa using Nat.succ_le_succ this
      | true =>
          simp only [hb]
          cases hc : (agent messages).content with
          | some c =>
              by_cases he : c = "" <;> simp [he]
          | none => simp

/-- Helper: when the agent issues tool calls on every conversation, the loop
consumes all its fuel and falls through to the fallback result. -/
theorem queryLoop_all_tools_fallback (agent : List Msg → AgentMsg)
    (tools : String → String → String)
    (h : ∀ ms, ((agent ms).toolCalls).isEmpty = false) :
    ∀ fuel iter messages log, ∃ finalLog,
      queryLoop agent tools fuel iter messages log = (fallbackResult finalLog, fuel) := by
  intro fuel
  induction fuel with
  | zero => intro iter messages log; exact ⟨log, by simp [queryLoop]⟩
  | succ n ih =>
      intro iter messages log
      unfold queryLoop
      simp only [h messages, if_true]
      obtain ⟨fl, hfl⟩ := ih (iter + 1)
        (runTurnTools tools (messages ++ [Msg.assistant (agent messages).content
          (agent messages).toolCalls]) (contentLogUpd iter (agent messages).content log)
          (agent messages).toolCalls).1
        (runTurnTools tools (messages ++ [Msg.assistant (agent messages).content
          (agent messages).toolCalls]) (contentLogUpd iter (agent messages).content log)
          (agent messages).toolCalls).2
      exact ⟨fl, by rw [hfl]⟩

/-- C4 — the query-agent loop is bounded by the hard iteration ceiling
`max_iterations = 15`: no run issues more than 15 chat completions, and an
agent that never produces a final bare-content answer exhausts exactly the
ceiling and terminates with the fallback result instead of iterating
further. -/
theorem c4_iteration_ceiling (agent : List Msg → AgentMsg)
    (tools : String → String → String) (prompt : String) :
    (runQuery agent tools prompt).2 ≤ max_iterations ∧
    ((∀ ms, ((agent ms).toolCalls).isEmpty = false) →
      ∃ finalLog,
        runQuery agent tools prompt = (fallbackResult finalLog, max_iterations)) := by
  constructor
  · exact queryLoop_count_le agent tools max_iterations 0 [Msg.user prompt] []
  · intro h
    exact queryLoop_all_tools_fallback agent tools h max_iterations 0 [Msg.user prompt] []

/-- An agent that always issues one tool call, used to exercise the ceiling. -/
def busyAgent : List Msg → AgentMsg :=
  fun _ => { content := none, toolCalls := [⟨"call_1", "list_files", "." ⟩] }

/-- A tool executor returning a fixed payload. -/
def fixedTools : String → String → String := fun _ _ => "ok"

/-- C4 — witness: the concrete busy agent hits the ceiling and receives the
fallback answer after exactly 15 completions. -/
theorem c4_witness :
    (runQuery busyAgent fixedTools "q").2 ≤ max_iterations ∧
    (runQuery busyAgent fixedTools "q").1.answer = "Unable to find a complete answer" := by
  have h := c4_iteration_ceiling busyAgent fixedTools "q"
  obtain ⟨fl, hfl⟩ := h.2 (fun _ => rfl)
  refine ⟨h.1, ?_⟩
  rw [hfl]
  simp [fallbackResult]

/-- Helper: closed form of the tool-dispatch loop of one agent turn — the
results are appended to the conversation and the log in exactly the order of
the received tool calls. -/
theorem runTurnTools_eq (tools : String → String → String) :
    ∀ (tcs : List ToolCall) (messages : List Msg) (log : List String),
      runTurnTools tools messages log tcs =
        (messages ++ tcs.map (mkToolMsg tools), log ++ tcs.map toolLogEntry) := by
  intro tcs
  induction tcs with
  | nil => intro messages log; simp [runTurnTools]
  | cons tc rest ih =>
      intro messages log
      simp [runTurnTools, ih]

/-- C6 — within one agent turn the tool calls are dispatched sequentially in
exactly the order received, each result being appended to the conversation
(and the thinking log) in that order; and the loop step shows that all of
these results are part of the conversation passed to the very next chat
completion. -/
theorem c6_sequential_dispatch (agent : List Msg → AgentMsg)
    (tools : String → String → String) (fuel iter : Nat)
    (messages : List Msg) (log : List String) (tcs : List ToolCall) :
    runTurnTools tools messages log tcs =
      (messages ++ tcs.map (mkToolMsg tools), log ++ tcs.map toolLogEntry) ∧
    ((agent messages).toolCalls.isEmpty = false →
      queryLoop agent tools (fuel + 1) iter messages log =
        ((queryLoop agent tools fuel (iter + 1)
            ((messages ++ [Msg.assistant (agent messages).content
                (agent messages).toolCalls]) ++
              (agent messages).toolCalls.map (mkToolMsg tools))
            (contentLogUpd iter (agent messages).content log ++
              (agent messages).toolCalls.map toolLogEntry)).1,
         (queryLoop agent tools fuel (iter + 1)
            ((messages ++ [Msg.assistant (agent messages).content
                (agent messages).toolCalls]) ++
              (agent messages).toolCalls.map (mkToolMsg tools))
            (contentLogUpd iter (agent messages).content log ++
              (agent messages).toolCalls.map toolLogEntry)).2 + 1)) := by
  refine ⟨runTurnTools_eq tools tcs messages log, ?_⟩
  intro h
  conv_lhs => unfold queryLoop
  simp only [h, if_true, runTurnTools_eq]

/-- C6 — witness at a concrete two-call turn. -/
theorem c6_witness :
    runTurnTools fixedTools [] [] [⟨"c1", "read_file", "a"⟩, ⟨"c2", "read_file", "b"⟩] =
      ([Msg.tool "c1" "read_file" "ok", Msg.tool "c2" "read_file" "ok"],
       ["[Tool] read_file(a)", "[Tool] read_file(b)"]) := by
  have h := (c6_sequential_dispatch busyAgent fixedTools 0 0 [] []
    [⟨"c1", "read_file", "a"⟩, ⟨"c2", "read_file", "b"⟩]).1
  simpa [mkToolMsg, toolLogEntry, fixedTools] using h

/-! ## Tool Registry dispatch (spec-modelled) -/

/-- Modelled from the spec: the Tool Registry (`documenter/tools.py`, class
`DocpackTools`) is not among the repository sources; only its caller
(`tools.execute(tool_name, args)` in the embedded query agent) is.  Per spec
section 6 the tool surface is a closed set of seven named tools. -/
inductive ToolName where
  | listFiles
  | readFile
  | readImage
  | readPageAsImage
  | searchIndex
  | queryGraph
  | writeOutput
deriving DecidableEq

/-- Modelled from the spec: mapping of the wire name of a tool to its
capability variant; any other name is unknown. -/
def parseToolName (s : String) : Option ToolName :=
  if s = "list_files" then some .listFiles
  else if s = "read_file" then some .readFile
  else if s = "read_image" then some .readImage
  else if s = "read_page_as_image" then some .readPageAsImage
  else if s = "search_index" then some .searchIndex
  else if s = "query_graph" then some .queryGraph
  else if s = "write_output" then some .writeOutput
  else none

/-- A tool outcome is always a structured payload: either a success payload
or an error descriptor with a message — never an uncaught fault. -/
inductive ToolOutcome where
  | success (payload : String)
  | failure (kind : String) (message : String)
deriving DecidableEq

/-- Modelled from the spec, section 4.2: `dispatch(name, args) -> ToolResult`;
an unknown name fails with `UnknownTool`; a tool absent from the manifest
declared set fails with `ToolNotPermitted` even if implemented; otherwise the
capability implementation runs against the sandbox state. -/
def dispatch (allowedTools : List String) (s : SandboxState) (name args : String)
    (runTool : ToolName → String → SandboxState → ToolOutcome × SandboxState) :
    ToolOutcome × SandboxState :=
  match parseToolName name with
  | none => (.failure "UnknownTool" ("Unknown tool: " ++ name), s)
  | some t =>
      if allowedTools.contains name then runTool t args s
      else (.failure "ToolNotPermitted" ("Tool not permitted: " ++ name), s)

/-- C7 — every outcome of the file-serving endpoint and of tool dispatch is
a structured payload: the endpoint answers every request with either a JSON
content payload or a status-carrying JSON error (a caught read failure maps
to a status-500 error, never an uncaught fault), and `dispatch` returns a
structured `ToolOutcome` for every input, with descriptive errors for an
unknown or non-permitted tool name. -/
theorem c7_structured_outcomes (dp : String) (fp : Option String)
    (fsRead : String → String → Except String String)
    (allowedTools : List String) (s : SandboxState) (name args : String)
    (runTool : ToolName → String → SandboxState → ToolOutcome × SandboxState) :
    ((∃ c, fileGetRespond dp fp fsRead = .ok c) ∨
      (∃ st m, fileGetRespond dp fp fsRead = .err st m)) ∧
    (∀ d p e, fileGet dp fp = .readJoin d p → fsRead d p = .error e →
        fileGetRespond dp fp fsRead = .err 500 e) ∧
    ((∃ pl s2, dispatch allowedTools s name args runTool = (.success pl, s2)) ∨
      (∃ k m s2, dispatch allowedTools s name args runTool = (.failure k m, s2))) ∧
    (parseToolName name = none →
      dispatch allowedTools s name args runTool =
        (.failure "UnknownTool" ("Unknown tool: " ++ name), s)) ∧
    (∀ t, parseToolName name = some t → allowedTools.contains name = false →
      dispatch allowedTools s name args runTool =
        (.failure "ToolNotPermitted" ("Tool not permitted: " ++ name), s)) := by
  refine ⟨?_, ?_, ?_, ?_, ?_⟩
  · cases h : fileGetRespond dp fp fsRead with
    | ok c => exact Or.inl ⟨c, rfl⟩
    | err st m => exact Or.inr ⟨st, m, rfl⟩
  · intro d p e hd he
    simp [fileGetRespond, hd, he]
  · cases h : dispatch allowedTools s name args runTool with
    | mk outcome s2 =>
        cases outcome with
        | success pl => exact Or.inl ⟨pl, s2, rfl⟩
        | failure k m => exact Or.inr ⟨k, m, s2, rfl⟩
  · intro h
    simp [dispatch, h]
  · intro t ht hna
    unfold dispatch
    rw [ht, hna]
    simp

/-- C7 — witness: a failed read maps to a structured status-500 error, and an
unknown tool name yields a structured error result. -/
theorem c7_witness :
    fileGetRespond "d" (some "files/x.md") (fun _ _ => .error "ENOENT") =
      .err 500 "ENOENT" ∧
    dispatch ["read_file"] ⟨10, 0⟩ "frobnicate" "" (fun _ _ st => (.success "", st)) =
      (.failure "UnknownTool" "Unknown tool: frobnicate", ⟨10, 0⟩) := by
  have h := c7_structured_outcomes "d" (some "files/x.md")
    (fun _ _ => .error "ENOENT") ["read_file"] ⟨10, 0⟩ "frobnicate" ""
    (fun _ _ st => (.success "", st))
  refine ⟨h.2.1 "d" "files/x.md" "ENOENT" (by rfl) rfl, h.2.2.2.1 (by rfl)⟩

/-! ## The docpack-listing endpoint

Embedding of the `GET` handler of `api/docpacks/+server.ts`
(src/unnamed/part_009, lines 191-288).  The `readdir` of the output directory
is modelled as `Option (List String)` (`none` when the directory does not
exist, which the code catches and answers with an empty list), and the whole
per-docpack manifest read, stat and size computation is modelled by
`packInfo`, which returns `none` exactly when the code logs the error and
maps the docpack to `null`. -/

/-- Suffix test on strings: the embedding of the JavaScript expression
`f.endsWith(".docpack")`. -/
def strEndsWith (s suf : String) : Bool :=
  listIsPref suf.toList.reverse s.toList.reverse

/-- The summary object built for one docpack (lines 262-269). -/
structure DocpackInfo where
  id : String
  name : String
  description : String
  created : String
  fileCount : Nat
  size : String
deriving DecidableEq

/-- Response of the listing endpoint. -/
inductive ListDocpacksResp where
  | ok (docpacks : List DocpackInfo)
  | err (status : Nat) (message : String)
deriving DecidableEq

/-- Embedding of the listing handler: missing directory yields an empty
success; otherwise the `.docpack` entries are mapped through `packInfo`, the
failed ones (`null`) are filtered out, and the remainder is reversed. -/
def listDocpacks (dirListing : Option (List String))
    (packInfo : String → Option DocpackInfo) : ListDocpacksResp :=
  match dirListing with
  | none => .ok []
  | some files =>
      let docpackDirs := files.filter (fun f => strEndsWith f ".docpack")
      .ok ((docpackDirs.filterMap packInfo).reverse)

/-- C9 — the listing endpoint never fails wholesale: every input produces a
success response; a missing output directory yields an empty docpack list;
every docpack whose manifest read succeeds is present in the response; and
every entry of the response comes from a successfully read docpack, so the
unreadable ones are silently omitted. -/
theorem c9_listing_total (dirListing : Option (List String))
    (packInfo : String → Option DocpackInfo) :
    (∃ l, listDocpacks dirListing packInfo = .ok l) ∧
    listDocpacks none packInfo = .ok [] ∧
    (∀ files l, listDocpacks (some files) packInfo = .ok l →
      (∀ dir info, dir ∈ files → strEndsWith dir ".docpack" = true →
          packInfo dir = some info → info ∈ l) ∧
      (∀ info, info ∈ l → ∃ dir, dir ∈ files ∧ strEndsWith dir ".docpack" = true ∧
          packInfo dir = some info)) := by
  refine ⟨?_, rfl, ?_⟩
  · cases dirListing with
    | none => exact ⟨[], rfl⟩
    | some files => exact ⟨_, rfl⟩
  · intro files l hl
    have hl2 : l = ((files.filter (fun f => strEndsWith f ".docpack")).filterMap packInfo).reverse := by
      simpa [listDocpacks] using hl.symm
    subst hl2
    constructor
    · intro dir info hdir hend hinfo
      rw [List.mem_reverse, List.mem_filterMap]
      exact ⟨dir, List.mem_filter.2 ⟨hdir, hend⟩, hinfo⟩
    · intro info hinfo
      rw [List.mem_reverse, List.mem_filterMap] at hinfo
      obtain ⟨dir, hdir, hread⟩ := hinfo
      obtain ⟨hmem, hend⟩ := List.mem_filter.1 hdir
      exact ⟨dir, hmem, hend, hread⟩

/-- C9 — witness: one readable and one unreadable docpack. -/
theorem c9_witness :
    listDocpacks none (fun _ => none) = .ok [] ∧
    (⟨"a", "A", "d", "c", 0, "0 B"⟩ : DocpackInfo) ∈
      (([("a.docpack" : String), "b.docpack"].filter
          (fun f => strEndsWith f ".docpack")).filterMap
        (fun d => if d = "a.docpack" then some ⟨"a", "A", "d", "c", 0, "0 B"⟩
          else none)).reverse := by
  have h := c9_listing_total (some ["a.docpack", "b.docpack"])
    (fun d => if d = "a.docpack" then some ⟨"a", "A", "d", "c", 0, "0 B"⟩ else none)
  refine ⟨(c9_listing_total none (fun _ => none)).2.1, ?_⟩
  have h2 := (h.2.2 ["a.docpack", "b.docpack"] _ rfl).1 "a.docpack"
    ⟨"a", "A", "d", "c", 0, "0 B"⟩ (by simp) (by decide) (by decide)
  simpa [listDocpacks] using h2

/-! ## The docpack viewer file tree

Embedding of `buildFileTree` of `website/src/routes/api/docpack/[id]/+server.ts`
(lines 16-45).  The directory contents are modelled as a tree of raw entries
(`readdir` with file types); the comparator at lines 41-44 places directories
before files and orders each group by `localeCompare` on the name, which is
modelled by the total order on strings; `Array.prototype.sort` is stable and
total, modelled by `List.mergeSort`.  The function is pure, so the same
directory contents always produce the same tree. -/

/-- Raw directory entry as seen by `readdir(dir, withFileTypes)`. -/
inductive FSEntry where
  | file (name : String)
  | dir (name : String) (entries : List FSEntry)

/-- Node type tag of the produced tree. -/
inductive NodeType where
  | directory
  | file
deriving DecidableEq

/-- Node of the produced file tree. -/
inductive FileNode where
  | mk (name : String) (path : String) (ntype : NodeType) (children : List FileNode)

/-- Name of a node. -/
def FileNode.name : FileNode → String
  | .mk n _ _ _ => n

/-- Relative path of a node. -/
def FileNode.path : FileNode → String
  | .mk _ p _ _ => p

/-- Type tag of a node. -/
def FileNode.ntype : FileNode → NodeType
  | .mk _ _ t _ => t

/-- Children of a node (empty for files). -/
def FileNode.children : FileNode → List FileNode
  | .mk _ _ _ c => c

/-- Embedding of `basePath ? basePath + "/" + item.name : item.name`. -/
def joinRel (basePath name : String) : String :=
  if basePath = "" then name else basePath ++ "/" ++ name

/-- The comparator of lines 41-44 as a boolean total preorder: `nodeLE a b`
holds exactly when the comparator orders `a` at or before `b`. -/
def nodeLE (a b : FileNode) : Bool :=
  if a.ntype = b.ntype then decide (a.name ≤ b.name)
  else decide (a.ntype = NodeType.directory)

mutual

/-- Node built for one raw entry: directories recurse and carry their own
sorted subtree. -/
def entryToNode (basePath : String) : FSEntry → FileNode
  | .file n => .mk n (joinRel basePath n) .file []
  | .dir n es =>
      .mk n (joinRel basePath n) .directory
        ((entriesToNodes (joinRel basePath n) es).mergeSort nodeLE)

/-- Nodes built for a list of raw entries, in directory order. -/
def entriesToNodes (basePath : String) : List FSEntry → List FileNode
  | [] => []
  | e :: rest => entryToNode basePath e :: entriesToNodes basePath rest

end

/-- Embedding of `buildFileTree`: build the nodes of one directory level and
sort them with the comparator. -/
def buildFileTree (basePath : String) (es : List FSEntry) : List FileNode :=
  (entriesToNodes basePath es).mergeSort nodeLE

/-- Helper: the comparator is transitive. -/
theorem nodeLE_trans (a b c : FileNode) (h1 : nodeLE a b = true)
    (h2 : nodeLE b c = true) : nodeLE a c = true := by
  unfold nodeLE at *
  cases ha : a.ntype <;> cases hb : b.ntype <;> cases hc : c.ntype <;>
    simp_all <;> exact le_trans h1 h2

/-- Helper: the comparator is total. -/
theorem nodeLE_total (a b : FileNode) : nodeLE a b = true ∨ nodeLE b a = true := by
  unfold nodeLE
  by_cases hab : a.ntype = b.ntype
  · simp only [hab, if_true, decide_eq_true_eq]
    exact le_total a.name b.name
  · have hba : ¬ b.ntype = a.ntype := fun h => hab h.symm
    simp only [hab, hba, if_false, decide_eq_true_eq]
    cases ha : a.ntype <;> cases hb : b.ntype <;> simp_all

/-- Helper: every output of the comparator sort is pairwise comparator
ordered. -/
theorem pairwise_mergeSort_nodeLE (l : List FileNode) :
    List.Pairwise (fun a b => nodeLE a b = true) (l.mergeSort nodeLE) := by
  apply List.sorted_mergeSort
  · exact fun a b c => nodeLE_trans a b c
  · intro a b
    rcases nodeLE_total a b with h | h <;> simp [h]

/-- Helper: a comparator-ordered pair satisfies the grouping and naming
property of the claim. -/
theorem nodeLE_property (a b : FileNode) (h : nodeLE a b = true) :
    (a.ntype = NodeType.file → b.ntype = NodeType.file) ∧
    (a.ntype = b.ntype → a.name ≤ b.name) := by
  unfold nodeLE at h
  by_cases hab : a.ntype = b.ntype
  · simp only [hab, if_true, decide_eq_true_eq] at h
    exact ⟨fun haf => hab.symm.trans haf |>.symm ▸ rfl, fun _ => h⟩
  · simp only [hab, if_false, decide_eq_true_eq] at h
    constructor
    · intro haf
      rw [haf] at h
      cases h
    · intro he
      exact absurd he hab

/-- C10 — the file tree built for the docpack viewer is deterministically
ordered at every level: in the produced order, once a file appears every
later sibling is also a file (all directories precede all files), and
within a run of equal node types the names are in nondecreasing order; the
same holds for the children of every directory node; and the construction
is a pure function of the directory contents. -/
theorem c10_file_tree_order (basePath : String) (es : List FSEntry) :
    List.Pairwise (fun a b =>
      (a.ntype = NodeType.file → b.ntype = NodeType.file) ∧
      (a.ntype = b.ntype → a.name ≤ b.name)) (buildFileTree basePath es) ∧
    (∀ bp e, List.Pairwise (fun a b =>
      (a.ntype = NodeType.file → b.ntype = NodeType.file) ∧
      (a.ntype = b.ntype → a.name ≤ b.name)) (FileNode.children (entryToNode bp e))) ∧
    buildFileTree basePath es = buildFileTree basePath es := by
  refine ⟨?_, ?_, rfl⟩
  · exact (pairwise_mergeSort_nodeLE _).imp (fun h => nodeLE_property _ _ h)
  · intro bp e
    cases e with
    | file n => simp [entryToNode, FileNode.children]
    | dir n es2 =>
        exact (pairwise_mergeSort_nodeLE _).imp (fun h => nodeLE_property _ _ h)

/-- C10 — witness: the ordering property at a concrete directory. -/
theorem c10_witness :
    List.Pairwise (fun a b =>
      (FileNode.ntype a = NodeType.file → FileNode.ntype b = NodeType.file) ∧
      (FileNode.ntype a = FileNode.ntype b → FileNode.name a ≤ FileNode.name b))
      (buildFileTree "" [FSEntry.file "b.md", FSEntry.dir "src" [], FSEntry.file "a.md"]) :=
  (c10_file_tree_order "" [FSEntry.file "b.md", FSEntry.dir "src" [], FSEntry.file "a.md"]).1

/-! ## Task Graph ordering (spec-modelled)

Modelled from the spec: the Task Graph component (the task scheduler of
`documenter/main.py`) is not among the repository sources; only the task
schema (`tasks.json` with `depends_on`) and the component contract are
documented.  Spec section 4.3: given a set of TaskSpecs, produce a total
order consistent with `depends_on` (topological sort); fail with
`CyclicDependency` if a cycle exists; ties among independently-ready tasks
are broken by declaration order.  The model below is the declaration-order
Kahn algorithm: repeatedly emit the first task, in declaration order, all
of whose dependencies are already emitted.  A dependency cycle is rendered
by its standard finite characterization: a nonempty set of task ids each of
which depends on another member of the set. -/

/-- A declared task: its id and its `depends_on` list, in declaration order. -/
structure TaskSpec where
  id : String
  depends_on : List String
deriving DecidableEq

/-- Failure of task-graph validation. -/
inductive TaskGraphError where
  | cyclicDependency
deriving DecidableEq

/-- A task is ready once all of its dependencies are already emitted. -/
def readyB (done : List String) (t : TaskSpec) : Bool :=
  t.depends_on.all (fun d => done.contains d)

/-- First ready task in declaration order. -/
def pickReady (done : List String) (pending : List TaskSpec) : Option TaskSpec :=
  pending.find? (readyB done)

/-- Remove the first task carrying the given id. -/
def removeFirstById (i : String) : List TaskSpec → List TaskSpec
  | [] => []
  | t :: ts => if t.id = i then ts else t :: removeFirstById i ts

/-- Kahn loop: emit ready tasks until none remain; report `CyclicDependency`
when tasks remain but none is ready. -/
def topoAux : Nat → List String → List TaskSpec → Except TaskGraphError (List String)
  | _, done, [] => .ok done
  | 0, _, _ :: _ => .error .cyclicDependency
  | fuel + 1, done, p :: ps =>
      match pickReady done (p :: ps) with
      | none => .error .cyclicDependency
      | some t => topoAux fuel (done ++ [t.id]) (removeFirstById t.id (p :: ps))

/-- Modelled from the spec: the execution order of a task list. -/
def topoSort (tasks : List TaskSpec) : Except TaskGraphError (List String) :=
  topoAux tasks.length [] tasks

/-- Order checker: a produced order is consistent with `depends_on` when
every task whose id is emitted has all of its dependencies emitted earlier. -/
def checkOrder (tasks : List TaskSpec) (done : List String) : List String → Bool
  | [] => true
  | x :: rest =>
      tasks.all (fun t => !(t.id == x) || readyB done t) &&
      checkOrder tasks (done ++ [x]) rest

/-- Helper: a task with a different id survives the removal. -/
theorem mem_removeFirstById (i : String) (u : TaskSpec) :
    ∀ l : List TaskSpec, u ∈ l → u.id ≠ i → u ∈ removeFirstById i l := by
  intro l
  induction l with
  | nil => intro h; cases h
  | cons t ts ih =>
      intro hu hne
      by_cases ht : t.id = i
      · simp only [removeFirstById, ht, if_true]
        rcases List.mem_cons.1 hu with hut | hut
        · exact absurd (hut ▸ ht) hne
        · exact hut
      · simp only [removeFirstById, ht, if_false]
        rcases List.mem_cons.1 hu with hut | hut
        · exact hut ▸ List.mem_cons_self t (removeFirstById i ts)
        · exact List.mem_cons_of_mem t (ih hut hne)

/-- Helper: removal yields a sublist. -/
theorem removeFirstById_sublist (i : String) :
    ∀ l : List TaskSpec, (removeFirstById i l).Sublist l := by
  intro l
  induction l with
  | nil => simp [removeFirstById]
  | cons t ts ih =>
      by_cases ht : t.id = i
      · simp only [removeFirstById, ht, if_true]
        exact List.sublist_cons_self t ts
      · simp only [removeFirstById, ht, if_false]
        exact List.Sublist.cons₂ t ih

/-- Helper: a successful Kahn run extends the emitted list with an order
that the checker accepts and that covers and is covered by the pending
task ids. -/
theorem topoAux_ok_spec (tasks : List TaskSpec) :
    ∀ (fuel : Nat) (pending : List TaskSpec) (done : List String)
      (out : List String),
      (∀ u ∈ pending, ∀ v ∈ tasks, v.id = u.id → v = u) →
      topoAux fuel done pending = .ok out →
      ∃ rest, out = done ++ rest ∧ checkOrder tasks done rest = true ∧
        (∀ u ∈ pending, u.id ∈ rest) ∧
        (∀ x ∈ rest, ∃ u ∈ pending, u.id = x) := by
  intro fuel
  induction fuel with
  | zero =>
      intro pending done out hup h
      cases pending with
      | nil =>
          refine ⟨[], ?_, rfl, by simp, by simp⟩
          have : done = out := by simpa [topoAux] using h
          simp [this]
      | cons p ps => simp [topoAux] at h
  | succ n ih =>
      intro pending done out hup h
      cases pending with
      | nil =>
          refine ⟨[], ?_, rfl, by simp, by simp⟩
          have : done = out := by simpa [topoAux] using h
          simp [this]
      | cons p ps =>
          rw [topoAux] at h
          cases hpick : pickReady done (p :: ps) with
          | none => rw [hpick] at h; cases h
          | some t =>
              rw [hpick] at h
              have htmem : t ∈ p :: ps := List.mem_of_find?_eq_some hpick
              have htready : readyB done t = true := List.find?_some hpick
              have hup2 : ∀ u ∈ removeFirstById t.id (p :: ps),
                  ∀ v ∈ tasks, v.id = u.id → v = u := by
                intro u hu v hv hid
                exact hup u ((removeFirstById_sublist t.id (p :: ps)).subset hu) v hv hid
              obtain ⟨rest, hout, hchk, hcov, hsrc⟩ :=
                ih (removeFirstById t.id (p :: ps)) (done ++ [t.id]) out hup2 h
              refine ⟨t.id :: rest, by simpa using hout, ?_, ?_, ?_⟩
              · rw [checkOrder, Bool.and_eq_true]
                refine ⟨?_, hchk⟩
                rw [List.all_eq_true]
                intro v hv
                by_cases hid : v.id = t.id
                · have : v = t := hup t htmem v hv hid
                  simp [this, htready]
                · simp [hid]
              · intro u hu
                by_cases hid : u.id = t.id
                · simp [hid]
                · exact List.mem_cons_of_mem _
                    (hcov u (mem_removeFirstById t.id u (p :: ps) hu hid))
              · intro x hx
                rcases List.mem_cons.1 hx with hx | hx
                · exact ⟨t, htmem, hx.symm⟩
                · obtain ⟨u, hu, hux⟩ := hsrc x hx
                  exact ⟨u, (removeFirstById_sublist t.id (p :: ps)).subset hu, hux⟩

/-- Helper: a nonempty self-dependent set of task ids keeps the Kahn loop
from ever emitting one of its members, so the loop reports
`CyclicDependency`. -/
theorem topoAux_cycle_spec :
    ∀ (fuel : Nat) (pending : List TaskSpec) (done : List String)
      (S : List String),
      (pending.map TaskSpec.id).Nodup →
      S ≠ [] →
      (∀ x ∈ S, ∃ t ∈ pending, t.id = x ∧ ∃ d ∈ t.depends_on, d ∈ S) →
      (∀ x ∈ S, x ∉ done) →
      topoAux fuel done pending = .error .cyclicDependency := by
  intro fuel
  induction fuel with
  | zero =>
      intro pending done S hnd hS hwit _
      cases pending with
      | nil =>
          cases S with
          | nil => exact absurd rfl hS
          | cons x xs =>
              obtain ⟨t, ht, -⟩ := hwit x (List.mem_cons_self x xs)
              cases ht
      | cons p ps => rfl
  | succ n ih =>
      intro pending done S hnd hS hwit hdis
      cases pending with
      | nil =>
          cases S with
          | nil => exact absurd rfl hS
          | cons x xs =>
              obtain ⟨t, ht, -⟩ := hwit x (List.mem_cons_self x xs)
              cases ht
      | cons p ps =>
          rw [topoAux]
          cases hpick : pickReady done (p :: ps) with
          | none => rfl
          | some t =>
              have htmem : t ∈ p :: ps := List.mem_of_find?_eq_some hpick
              have htready : readyB done t = true := List.find?_some hpick
              have htS : t.id ∉ S := by
                intro htS
                obtain ⟨u, hu, huid, d, hd, hdS⟩ := hwit t.id htS
                have : u = t := List.inj_on_of_nodup_map hnd hu htmem huid
                subst this
                have hdone : done.contains d = true := by
                  have := (List.all_eq_true.1 htready) d hd
                  simpa using this
                have : d ∈ done := by simpa using hdone
                exact hdis d hdS this
              apply ih
              · exact List.Nodup.sublist
                  ((removeFirstById_sublist t.id (p :: ps)).map TaskSpec.id) hnd
              · exact hS
              · intro x hx
                obtain ⟨u, hu, huid, d, hd, hdS⟩ := hwit x hx
                have hune : u.id ≠ t.id := by
                  intro he
                  exact htS (he ▸ huid ▸ hx)
                exact ⟨u, mem_removeFirstById t.id u (p :: ps) hu hune, huid, d, hd, hdS⟩
              · intro x hx
                have h1 : x ∉ done := hdis x hx
                have h2 : x ≠ t.id := fun he => htS (he ▸ hx)
                simp [List.mem_append, h1, h2]

/-- C5 — spec-modelled scheduler contract: when `topoSort` succeeds, the
produced execution order passes the consistency checker (every dependency
precedes its dependent), contains exactly the declared task ids (a total
order over the set), ties are broken by declaration order (the next emitted
task is always the first ready one in declaration order), the function is
deterministic, and any task set containing a dependency cycle (a nonempty
set of ids each depending on another member) fails with `CyclicDependency`
before any order is produced. -/
theorem c5_topological_order (tasks : List TaskSpec)
    (hnd : (tasks.map TaskSpec.id).Nodup) :
    (∀ out, topoSort tasks = .ok out →
        checkOrder tasks [] out = true ∧
        (∀ t ∈ tasks, t.id ∈ out) ∧
        (∀ x ∈ out, ∃ t ∈ tasks, t.id = x)) ∧
    (∀ S : List String, S ≠ [] →
        (∀ x ∈ S, ∃ t ∈ tasks, t.id = x ∧ ∃ d ∈ t.depends_on, d ∈ S) →
        topoSort tasks = .error .cyclicDependency) ∧
    (∀ done pending t, pickReady done pending = some t →
        ∃ pre post, pending = pre ++ t :: post ∧ readyB done t = true ∧
          ∀ u ∈ pre, readyB done u = false) ∧
    topoSort tasks = topoSort tasks := by
  refine ⟨?_, ?_, ?_, rfl⟩
  · intro out hout
    have hup : ∀ u ∈ tasks, ∀ v ∈ tasks, v.id = u.id → v = u := by
      intro u hu v hv hid
      exact List.inj_on_of_nodup_map hnd hv hu hid
    obtain ⟨rest, hrest, hchk, hcov, hsrc⟩ :=
      topoAux_ok_spec tasks tasks.length tasks [] out hup hout
    have : out = rest := by simpa using hrest
    subst this
    exact ⟨hchk, hcov, hsrc⟩
  · intro S hS hwit
    exact topoAux_cycle_spec tasks.length tasks [] S hnd hS hwit (by simp)
  · intro done pending t hpick
    obtain ⟨hpt, pre, post, hsplit, hpre⟩ := List.find?_eq_some.1 hpick
    refine ⟨pre, post, hsplit, hpt, ?_⟩
    intro u hu
    have := hpre u hu
    simpa using this

/-- Concrete two-task set used to exercise the scheduler contract. -/
def wTasks : List TaskSpec := [⟨"t1", []⟩, ⟨"t2", ["t1"]⟩]

/-- C5 — witness: on a concrete dependent pair the produced order passes the
checker and contains the dependent task. -/
theorem c5_witness :
    checkOrder wTasks [] ["t1", "t2"] = true ∧
    ("t2" : String) ∈ (["t1", "t2"] : List String) := by
  have h := (c5_topological_order wTasks (by decide)).1 ["t1", "t2"] (by rfl)
  exact ⟨h.1, h.2.1 ⟨"t2", ["t1"]⟩ (by simp [wTasks])⟩
